import Mathlib

/-!
Verification development for the `bevy_xpbd_test` scene demo
(`src/main.rs`).

The first-party logic of the program is embedded shallowly:

* `FNum` models the program's `f32` values.  All numeric literals that the
  claims touch are small dyadic rationals on which `f32` arithmetic is
  exact, so finite values are carried as exact rationals; every non-finite
  result is collapsed into the single element `FNum.nan`.  The only
  zero-denominator division reachable in the program is `0.0 / 0.0`
  (an empty fold divided by its length), which is NaN in IEEE 754 as well,
  so the collapse loses nothing on reachable computations.
* `FVec3`, `QuatF`, `TransformF` mirror `glam`'s `Vec3`, `Quat` and the
  engine's decomposed `Transform` (translation, rotation, scale) over
  `FNum`; `QuatF.mulVec3` is glam's `Quat::mul_vec3` formula.
* `Contacts`, `ContactManifold`, `ContactData` mirror the shape of the
  physics plugin's collision event that `collide` reads.
* `collideEvent` is the body of the `collide` system for one event:
  the skip on `during_previous_frame`, the `get_many` transform lookup,
  the nested fold over manifolds and contact points, and the world-space
  mapping `translation + rotation * centroid`.
* `rotation_between`, `almost_zero`, `EPSILON` are embedded over the real
  numbers (`RVec3`, `RQuat`), the standard exact model for the `f32`
  trigonometry the function uses.
* The host engine's `Timer` (used by the `Trigger` resource and by
  `DelayedDespawn`) is not part of this repository's sources, so it is
  modelled from the specification's words (see `Trigger.tick` and
  `DelayedDespawn.tick`).
* `AppState`/`step` give the per-frame transition system: the `Update`
  schedule with `despawn_delayed` unconditional and `fire`/`collide`
  gated on the `Play` state, plus the one-shot `Load → Play` transition
  running `setup_scene`.
-/

/-- Model of an `f32` value: an exact finite rational or a collapsed
non-finite value (`nan`).  Arithmetic propagates `nan` like IEEE NaN. -/
inductive FNum where
  | nan : FNum
  | fin (q : ℚ) : FNum
deriving DecidableEq

def FNum.add : FNum → FNum → FNum
  | .fin a, .fin b => .fin (a + b)
  | _, _ => .nan

def FNum.sub : FNum → FNum → FNum
  | .fin a, .fin b => .fin (a - b)
  | _, _ => .nan

def FNum.mul : FNum → FNum → FNum
  | .fin a, .fin b => .fin (a * b)
  | _, _ => .nan

/-- `f32` division; a zero denominator gives a non-finite result
(`0.0 / 0.0` is NaN; that is the only zero-denominator division the
program reaches). -/
def FNum.div : FNum → FNum → FNum
  | .fin a, .fin b => if b = 0 then .nan else .fin (a / b)
  | _, _ => .nan

/-- Is the value finite? -/
def FNum.isFinite : FNum → Bool
  | .nan => false
  | .fin _ => true

/-- Model of `glam::Vec3` over `FNum`. -/
structure FVec3 where
  x : FNum
  y : FNum
  z : FNum
deriving DecidableEq

def FVec3.ZERO : FVec3 := ⟨.fin 0, .fin 0, .fin 0⟩

def FVec3.add (a b : FVec3) : FVec3 :=
  ⟨a.x.add b.x, a.y.add b.y, a.z.add b.z⟩

/-- `Vec3 / f32`: componentwise division by a scalar. -/
def FVec3.divs (v : FVec3) (s : FNum) : FVec3 :=
  ⟨v.x.div s, v.y.div s, v.z.div s⟩

/-- `Vec3 * f32`: componentwise scaling. -/
def FVec3.muls (v : FVec3) (s : FNum) : FVec3 :=
  ⟨v.x.mul s, v.y.mul s, v.z.mul s⟩

def FVec3.dot (a b : FVec3) : FNum :=
  ((a.x.mul b.x).add (a.y.mul b.y)).add (a.z.mul b.z)

def FVec3.cross (a b : FVec3) : FVec3 :=
  ⟨(a.y.mul b.z).sub (a.z.mul b.y),
   (a.z.mul b.x).sub (a.x.mul b.z),
   (a.x.mul b.y).sub (a.y.mul b.x)⟩

/-- All three components finite. -/
def FVec3.isFinite (v : FVec3) : Bool :=
  v.x.isFinite && v.y.isFinite && v.z.isFinite

/-- Model of `glam::Quat` over `FNum` (field order as in glam: x y z w). -/
structure QuatF where
  x : FNum
  y : FNum
  z : FNum
  w : FNum
deriving DecidableEq

def QuatF.IDENTITY : QuatF := ⟨.fin 0, .fin 0, .fin 0, .fin 1⟩

/-- glam `Quat::mul_vec3`:
`rhs * (w*w - b.b) + b * (rhs.b * 2) + (b × rhs) * (w * 2)`
where `b` is the quaternion's vector part. -/
def QuatF.mulVec3 (q : QuatF) (rhs : FVec3) : FVec3 :=
  let b : FVec3 := ⟨q.x, q.y, q.z⟩
  let b2 : FNum := b.dot b
  ((rhs.muls ((q.w.mul q.w).sub b2)).add
      (b.muls ((rhs.dot b).mul (.fin 2)))).add
    ((b.cross rhs).muls (q.w.mul (.fin 2)))

/-- The decomposed transform the `collide` system obtains from
`GlobalTransform::compute_transform()`: translation, rotation, scale. -/
structure TransformF where
  translation : FVec3
  rotation : QuatF
  scale : FVec3
deriving DecidableEq

/-- One contact point pair of a manifold (`point1` on body 1, `point2` on
body 2, both in the respective body's local frame). -/
structure ContactData where
  point1 : FVec3
  point2 : FVec3
deriving DecidableEq

/-- One contact manifold: a sequence of contact point pairs. -/
structure ContactManifold where
  contacts : List ContactData
deriving DecidableEq

/-- The payload of a `Collision` event as read by `collide`. -/
structure Contacts where
  entity1 : Nat
  entity2 : Nat
  during_previous_frame : Bool
  manifolds : List ContactManifold
deriving DecidableEq

/-- The nested fold of `collide` accumulating, for each body, the sum over
manifolds of the per-manifold mean contact point (the source's
`fold` over `contacts.manifolds`). -/
def collideSum (manifolds : List ContactManifold) : FVec3 × FVec3 :=
  manifolds.foldl
    (fun acc manifold =>
      let sum := manifold.contacts.foldl
        (fun a v => (a.1.add v.point1, a.2.add v.point2))
        (FVec3.ZERO, FVec3.ZERO)
      let count : FNum := .fin manifold.contacts.length
      let point1 := sum.1.divs count
      let point2 := sum.2.divs count
      (acc.1.add point1, acc.2.add point2))
    (FVec3.ZERO, FVec3.ZERO)

/-- The body of the `collide` system for a single collision event:
skip events from the previous frame, resolve both entities' transforms,
average the manifolds' mean contact points, and map each body's local
centroid to world space as `translation + rotation * centroid`.
Returns the two world-space marker positions (the system spawns one
impact-marker entity at each), or `none` when the event is skipped. -/
def collideEvent (lookup : Nat → Option TransformF) (c : Contacts) :
    Option (FVec3 × FVec3) :=
  if c.during_previous_frame then none
  else
    match lookup c.entity1, lookup c.entity2 with
    | some t1, some t2 =>
      let sum := collideSum c.manifolds
      let count : FNum := .fin c.manifolds.length
      some (t1.translation.add (t1.rotation.mulVec3 (sum.1.divs count)),
            t2.translation.add (t2.rotation.mulVec3 (sum.2.divs count)))
    | _, _ => none

/-- The positions of the impact markers spawned for one event: two markers
for a processed event, none for a skipped one. -/
def collideMarkers (lookup : Nat → Option TransformF) (c : Contacts) :
    List FVec3 :=
  match collideEvent lookup c with
  | some (p1, p2) => [p1, p2]
  | none => []

/-- A transform lookup resolving exactly the two given entity ids,
standing in for the `get_many` query of `collide`. -/
def lookup2 (i1 i2 : Nat) (t1 t2 : TransformF) : Nat → Option TransformF :=
  fun i => if i = i1 then some t1 else if i = i2 then some t2 else none

/-- Modelled from the spec: the mean of a list of vectors (sum divided by
length), the building block of the spec's average-of-averages description
of the Collision Response centroid. -/
def meanF (l : List FVec3) : FVec3 :=
  (l.foldl FVec3.add FVec3.ZERO).divs (.fin l.length)

/-- Modelled from the spec: body 1's per-event centroid as the unweighted
mean of the per-manifold contact-point means. -/
def specCentroid1 (manifolds : List ContactManifold) : FVec3 :=
  meanF (manifolds.map (fun m => meanF (m.contacts.map (·.point1))))

/-- Modelled from the spec: body 2's per-event centroid as the unweighted
mean of the per-manifold contact-point means. -/
def specCentroid2 (manifolds : List ContactManifold) : FVec3 :=
  meanF (manifolds.map (fun m => meanF (m.contacts.map (·.point2))))

/-- Real-number model of `glam::Vec3` for the `rotation_between` helper
(exact-real model of the `f32` computation). -/
structure RVec3 where
  x : ℝ
  y : ℝ
  z : ℝ

def RVec3.dot (a b : RVec3) : ℝ := a.x * b.x + a.y * b.y + a.z * b.z

def RVec3.cross (a b : RVec3) : RVec3 :=
  ⟨a.y * b.z - a.z * b.y, a.z * b.x - a.x * b.z, a.x * b.y - a.y * b.x⟩

def RVec3.smul (c : ℝ) (v : RVec3) : RVec3 := ⟨c * v.x, c * v.y, c * v.z⟩

def RVec3.addv (a b : RVec3) : RVec3 := ⟨a.x + b.x, a.y + b.y, a.z + b.z⟩

noncomputable def RVec3.length (v : RVec3) : ℝ := Real.sqrt (v.dot v)

/-- glam `Vec3::normalize`: `self * self.length().recip()`. -/
noncomputable def RVec3.normalize (v : RVec3) : RVec3 :=
  RVec3.smul (v.length)⁻¹ v

/-- `Vec3::X`. -/
def RVec3.X : RVec3 := ⟨1, 0, 0⟩

def RVec3.zero : RVec3 := ⟨0, 0, 0⟩

/-- `const EPSILON: f32 = 0.001`. -/
noncomputable def EPSILON : ℝ := 1 / 1000

/-- The `ZeroCheck::almost_zero` predicate of the source: all three axis
magnitudes below `EPSILON` (a componentwise check, not vector length). -/
def almost_zero (v : RVec3) : Prop :=
  |v.x| < EPSILON ∧ |v.y| < EPSILON ∧ |v.z| < EPSILON

/-- Real-number model of `glam::Quat` (field order as in glam). -/
structure RQuat where
  x : ℝ
  y : ℝ
  z : ℝ
  w : ℝ

def RQuat.IDENTITY : RQuat := ⟨0, 0, 0, 1⟩

/-- glam `Quat::from_axis_angle`: `(axis * sin(angle/2), cos(angle/2))`. -/
noncomputable def RQuat.from_axis_angle (axis : RVec3) (angle : ℝ) : RQuat :=
  ⟨axis.x * Real.sin (angle / 2), axis.y * Real.sin (angle / 2),
   axis.z * Real.sin (angle / 2), Real.cos (angle / 2)⟩

/-- glam `Quat::mul_vec3`:
`rhs * (w*w - b.b) + b * (rhs.b * 2) + (b × rhs) * (w * 2)`. -/
def RQuat.mulVec3 (q : RQuat) (rhs : RVec3) : RVec3 :=
  let b : RVec3 := ⟨q.x, q.y, q.z⟩
  let b2 : ℝ := b.dot b
  RVec3.addv
    (RVec3.addv (RVec3.smul (q.w * q.w - b2) rhs)
      (RVec3.smul (RVec3.dot rhs b * 2) b))
    (RVec3.smul (q.w * 2) (RVec3.cross b rhs))

open Classical in
/-- The source's `rotation_between`: identity for almost-zero inputs,
identity for already-aligned directions, a half-turn about
`normalize(X × normalize(from))` for opposite directions, and the
axis-angle quaternion `(normalize(â × b̂), acos(â · b̂))` in general. -/
noncomputable def rotation_between (f t : RVec3) : RQuat :=
  if almost_zero f ∨ almost_zero t then RQuat.IDENTITY
  else
    let normalized_a := f.normalize
    let normalized_b := t.normalize
    let dot_product := normalized_a.dot normalized_b
    if 1 ≤ dot_product then RQuat.IDENTITY
    else if dot_product ≤ -1 then
      RQuat.from_axis_angle ((RVec3.X.cross normalized_a).normalize) Real.pi
    else
      RQuat.from_axis_angle ((normalized_a.cross normalized_b).normalize)
        (Real.arccos dot_product)

/-- Modelled from the spec: the Periodic Trigger resource.  The host
engine's `Timer` type backing `Trigger(Timer::from_seconds(4.0,
TimerMode::Repeating))` is not part of this repository's sources; the
spec describes it as `interval`/`elapsed` with repeating semantics. -/
structure Trigger where
  interval : ℚ
  elapsed : ℚ
deriving DecidableEq

/-- Modelled from the spec: one `advance(delta)` of the Periodic Trigger
(`Timer::tick` + `finished()` as used by `fire`): `elapsed` grows by the
delta; on `elapsed >= interval` it reports one fire signal (a single
`Bool`, so at most one fire per call) and resets `elapsed -= interval`
so the overshoot carries forward. -/
def Trigger.tick (t : Trigger) (delta : ℚ) : Trigger × Bool :=
  let e := t.elapsed + delta
  if t.interval ≤ e then ({ t with elapsed := e - t.interval }, true)
  else ({ t with elapsed := e }, false)

/-- The `DelayedDespawn` component: a one-shot countdown.  The backing
host-engine `Timer` is modelled from the spec as a duration plus
accumulated elapsed time. -/
structure DelayedDespawn where
  duration : ℚ
  elapsed : ℚ
deriving DecidableEq

/-- `DelayedDespawn::after(seconds)`. -/
def DelayedDespawn.after (seconds : ℚ) : DelayedDespawn :=
  ⟨seconds, 0⟩

/-- Modelled from the spec: one `advance(delta)` of the one-shot timer:
the elapsed time grows by the frame delta. -/
def DelayedDespawn.tick (d : DelayedDespawn) (delta : ℚ) : DelayedDespawn :=
  { d with elapsed := d.elapsed + delta }

/-- Modelled from the spec: the timer reports expiry once its remaining
time is exhausted (`elapsed` has reached the configured duration). -/
def DelayedDespawn.finished (d : DelayedDespawn) : Bool :=
  decide (d.duration ≤ d.elapsed)

/-- Ghost provenance of an entity in the world model: which spawn site
created it. -/
inductive Origin where
  | camera
  | light
  | rock
  | rockChild
  | ammo
  | ammoChild
  | marker
deriving DecidableEq

/-- The two physics layers of the source's `Layer` enum. -/
inductive Layer where
  | Ammo
  | Object
deriving DecidableEq

/-- `RigidBody` variants used by the program. -/
inductive RB where
  | Kinematic
deriving DecidableEq

/-- An entity of the world model, with the component shape the claims
track: presence flags for mesh/material/transform, the physics
components, the `DelayedDespawn` timer, and the scene-hierarchy
ancestor chain (`ancestors` lists the ids of all ancestors, so
`despawn_recursive` on an id removes every entity whose chain holds it). -/
structure Ent where
  id : Nat
  ancestors : List Nat
  origin : Origin
  hasMesh : Bool
  hasMaterial : Bool
  hasTransform : Bool
  hasCollider : Bool
  rigidBody : Option RB
  layers : Option Layer
  delayed : Option DelayedDespawn
deriving DecidableEq

/-- Is `e` the entity `root` itself or one of its descendants? -/
def inSubtree (root : Nat) (e : Ent) : Bool :=
  e.id = root || root ∈ e.ancestors

/-- One collision event as seen by the world model (the manifold payload
is irrelevant to the scheduling and invariant claims). -/
structure CollEvent where
  entity1 : Nat
  entity2 : Nat
  during_previous_frame : Bool
deriving DecidableEq

/-- Per-frame input: the frame delta, whether the asset collection has
finished loading, and the collision events the physics plugin emitted. -/
structure FrameInput where
  delta : ℚ
  assetsLoaded : Bool
  events : List CollEvent
deriving DecidableEq

/-- Observable actions of a frame, recorded in a ghost log. -/
inductive Act where
  | fired
  | despawned (id : Nat)
  | spawnedMarker (id : Nat)
deriving DecidableEq

/-- The application state: the two-state phase, the `Trigger` resource
(absent until `setup_scene` inserts it), the entity world, the fresh-id
counter, and the ghost action log. -/
structure AppState where
  phase : Bool
  trigger : Option Trigger
  world : List Ent
  nextId : Nat
  log : List Act
deriving DecidableEq

/-- `phase = false` is the `Load` state, `phase = true` is `Play`. -/
def AppState.inPlay (s : AppState) : Bool := s.phase

/-- The `despawn_delayed` system: tick every `DelayedDespawn` timer by the
frame delta; every entity whose timer finished is despawned recursively
together with its whole descendant subtree (the source queues one
`despawn_recursive` command per finished timer). Returns the new world
and the despawn actions. -/
def despawn_delayed (w : List Ent) (delta : ℚ) : List Ent × List Act :=
  let fired := w.filterMap (fun e =>
    match e.delayed with
    | some d => if (d.tick delta).finished then some e.id else none
    | none => none)
  let ticked := w.map (fun e => { e with delayed := e.delayed.map (·.tick delta) })
  (ticked.filter (fun e => fired.all (fun r => !(inSubtree r e))),
   fired.map Act.despawned)

/-- The entities spawned by `setup_scene`: the hooked rock scene (a
kinematic rigid body) whose "ball" child receives a trimesh collider on
the `Object` layer. -/
def rockEnts (nextId : Nat) : List Ent :=
  [{ id := nextId, ancestors := [], origin := .rock,
     hasMesh := false, hasMaterial := false, hasTransform := true,
     hasCollider := false, rigidBody := some .Kinematic, layers := none,
     delayed := none },
   { id := nextId + 1, ancestors := [nextId], origin := .rockChild,
     hasMesh := true, hasMaterial := true, hasTransform := true,
     hasCollider := true, rigidBody := none, layers := some .Object,
     delayed := none }]

/-- `setup_scene` (run on entering `Play`): insert the `Trigger` resource
with a 4 second repeating interval and spawn the rock. -/
def setup_scene (s : AppState) : AppState :=
  { s with trigger := some ⟨4, 0⟩,
           world := s.world ++ rockEnts s.nextId,
           nextId := s.nextId + 2 }

/-- The entities spawned by one firing of `fire`: the hooked ammo scene
(kinematic, linear velocity, `DelayedDespawn::after(8.0)`) whose
"collider" child receives a trimesh collider on the `Ammo` layer. -/
def ammoEnts (nextId : Nat) : List Ent :=
  [{ id := nextId, ancestors := [], origin := .ammo,
     hasMesh := false, hasMaterial := false, hasTransform := true,
     hasCollider := false, rigidBody := some .Kinematic, layers := none,
     delayed := some (.after 8) },
   { id := nextId + 1, ancestors := [nextId], origin := .ammoChild,
     hasMesh := true, hasMaterial := true, hasTransform := true,
     hasCollider := true, rigidBody := none, layers := some .Ammo,
     delayed := none }]

/-- The `fire` system: tick the `Trigger` resource; when it reports a
fire, spawn one ammo entity (with its collider child). -/
def fire (s : AppState) (delta : ℚ) : AppState :=
  match s.trigger with
  | none => s
  | some tr =>
    let (tr2, fired) := tr.tick delta
    if fired then
      { s with trigger := some tr2,
               world := s.world ++ ammoEnts s.nextId,
               nextId := s.nextId + 2,
               log := s.log ++ [.fired] }
    else { s with trigger := some tr2 }

/-- An impact marker as spawned by `collide`: a `MaterialMeshBundle`
(mesh, material, transform) plus `DelayedDespawn::after(1.0)` — and
nothing else: no collider, no rigid body, no collision layers. -/
def markerEnt (id : Nat) : Ent :=
  { id := id, ancestors := [], origin := .marker,
    hasMesh := true, hasMaterial := true, hasTransform := true,
    hasCollider := false, rigidBody := none, layers := none,
    delayed := some (.after 1) }

/-- Does the world hold entity `i` with the components of the `collide`
query (`ColliderParent`, `GlobalTransform`, `Collider`)? -/
def resolvable (w : List Ent) (i : Nat) : Bool :=
  w.any (fun e => e.id = i && e.hasCollider && e.hasTransform)

/-- The `collide` system at the world level: for every event that is not
from the previous frame and whose two participants both still resolve in
the collider query, spawn two impact markers. -/
def collide (s : AppState) (events : List CollEvent) : AppState :=
  events.foldl
    (fun st ev =>
      if ev.during_previous_frame then st
      else if resolvable st.world ev.entity1 && resolvable st.world ev.entity2 then
        { st with world := st.world ++ [markerEnt st.nextId, markerEnt (st.nextId + 1)],
                  nextId := st.nextId + 2,
                  log := st.log ++ [.spawnedMarker st.nextId,
                                    .spawnedMarker (st.nextId + 1)] }
      else st)
    s

/-- One frame: the `Load → Play` state transition (running `setup_scene`
on enter) once the assets are loaded, then the `Update` schedule —
`despawn_delayed` unconditionally, `fire` and `collide` only in `Play`
(`run_if(in_state(State::Play))`). -/
def step (s : AppState) (inp : FrameInput) : AppState :=
  let s1 := if !s.phase && inp.assetsLoaded then
      setup_scene { s with phase := true }
    else s
  let sw := despawn_delayed s1.world inp.delta
  let s2 := { s1 with world := sw.1, log := s1.log ++ sw.2 }
  if s2.phase then collide (fire s2 inp.delta) inp.events else s2

/-- The state after the `Startup` schedule (`setup_camera`): the camera
and the directional light, `Load` phase, no `Trigger` resource. -/
def initState : AppState :=
  { phase := false, trigger := none,
    world :=
      [{ id := 0, ancestors := [], origin := .camera,
         hasMesh := false, hasMaterial := false, hasTransform := true,
         hasCollider := false, rigidBody := none, layers := none,
         delayed := none },
       { id := 1, ancestors := [], origin := .light,
         hasMesh := false, hasMaterial := false, hasTransform := true,
         hasCollider := false, rigidBody := none, layers := none,
         delayed := none }],
    nextId := 2, log := [] }

/-- Engine contract for frame inputs (modelled from the spec: collision
events come from the physics plugin's broad/narrow phase over bodies
carrying colliders): every reported participant is a live entity with a
collider. -/
def ValidInput (s : AppState) (inp : FrameInput) : Prop :=
  ∀ ev ∈ inp.events,
    (∃ e ∈ s.world, e.id = ev.entity1 ∧ e.hasCollider = true) ∧
    (∃ e ∈ s.world, e.id = ev.entity2 ∧ e.hasCollider = true)

/-- States reachable from startup through frames with engine-valid
inputs. -/
inductive Reachable : AppState → Prop where
  | init : Reachable initState
  | step {s : AppState} {inp : FrameInput} :
      Reachable s → ValidInput s inp → Reachable (step s inp)

/-- A sample world transform for body 1: identity rotation, translation
`(10, 0, 0)`, unit scale. -/
def tA : TransformF :=
  ⟨⟨.fin 10, .fin 0, .fin 0⟩, QuatF.IDENTITY, ⟨.fin 1, .fin 1, .fin 1⟩⟩

/-- A sample world transform for body 2: identity rotation, zero
translation, unit scale. -/
def tB : TransformF :=
  ⟨⟨.fin 0, .fin 0, .fin 0⟩, QuatF.IDENTITY, ⟨.fin 1, .fin 1, .fin 1⟩⟩

/-- The spec's worked example: two manifolds with two contact points each
for body 1: `(1,0,0)`/`(3,0,0)` and `(1,0,0)`/`(1,2,0)`. -/
def exampleManifolds : List ContactManifold :=
  [⟨[⟨⟨.fin 1, .fin 0, .fin 0⟩, FVec3.ZERO⟩, ⟨⟨.fin 3, .fin 0, .fin 0⟩, FVec3.ZERO⟩]⟩,
   ⟨[⟨⟨.fin 1, .fin 0, .fin 0⟩, FVec3.ZERO⟩, ⟨⟨.fin 1, .fin 2, .fin 0⟩, FVec3.ZERO⟩]⟩]

/-- A fresh collision event carrying the spec's worked example. -/
def exampleEvent : Contacts := ⟨10, 20, false, exampleManifolds⟩

/-- The all-NaN vector. -/
def nanVec3 : FVec3 := ⟨.nan, .nan, .nan⟩

/-- Splitting a fold that accumulates a pair of running vector sums into
the two component folds. -/
theorem foldl_add_split {α : Type} (f g : α → FVec3) (l : List α) (p : FVec3 × FVec3) :
    l.foldl (fun acc v => (acc.1.add (f v), acc.2.add (g v))) p
      = (l.foldl (fun a v => a.add (f v)) p.1, l.foldl (fun a v => a.add (g v)) p.2) := by
  induction l generalizing p with
  | nil => rfl
  | cons hd tl ih => simp [List.foldl_cons, ih]

/-- The nested fold of `collide`, divided by the manifold count, is
exactly the spec's average-of-averages centroid, for each body. -/
theorem collideSum_spec (ms : List ContactManifold) :
    (collideSum ms).1.divs (.fin ms.length) = specCentroid1 ms ∧
    (collideSum ms).2.divs (.fin ms.length) = specCentroid2 ms := by
  unfold collideSum
  simp only [foldl_add_split]
  simp [specCentroid1, specCentroid2, meanF, List.foldl_map]

/-- Claim C2: for every fresh collision event with resolvable transforms,
`collide` computes for each body the unweighted mean of the per-manifold
contact-point means (average-of-averages) and maps it to world space as
`translation + rotation * centroid`; the result never depends on the
transforms' scale; on the spec's worked example the local centroid for
body 1 is `(1.5, 0.5, 0)` and, under an identity-rotation
translation-`(10,0,0)` transform, the world impact point is
`(11.5, 0.5, 0)`. -/
theorem collide_avg_of_avgs :
    (∀ (lookup : Nat → Option TransformF) (c : Contacts) (t1 t2 : TransformF),
      c.during_previous_frame = false →
      lookup c.entity1 = some t1 → lookup c.entity2 = some t2 →
      collideEvent lookup c =
        some (t1.translation.add (t1.rotation.mulVec3 (specCentroid1 c.manifolds)),
              t2.translation.add (t2.rotation.mulVec3 (specCentroid2 c.manifolds)))) ∧
    (∀ (c : Contacts) (t1 t2 : TransformF) (s1 s2 : FVec3),
      collideEvent
          (lookup2 c.entity1 c.entity2 { t1 with scale := s1 } { t2 with scale := s2 }) c =
        collideEvent (lookup2 c.entity1 c.entity2 t1 t2) c) ∧
    specCentroid1 exampleManifolds = ⟨.fin (3/2), .fin (1/2), .fin 0⟩ ∧
    (collideEvent (lookup2 10 20 tA tB) exampleEvent).map Prod.fst
      = some ⟨.fin (23/2), .fin (1/2), .fin 0⟩ := by
  refine ⟨?_, ?_, ?_, ?_⟩
  · intro lookup c t1 t2 hp h1 h2
    unfold collideEvent
    rw [hp, h1, h2]
    simp [(collideSum_spec c.manifolds).1, (collideSum_spec c.manifolds).2]
  · intro c t1 t2 s1 s2
    unfold collideEvent lookup2
    by_cases hp : c.during_previous_frame
    · simp [hp]
    · by_cases h21 : c.entity2 = c.entity1 <;> simp [hp, h21]
  · simp [specCentroid1, meanF, exampleManifolds, FVec3.add, FVec3.ZERO, FVec3.divs,
      FNum.add, FNum.div, FNum.mul]
    norm_num
  · simp [collideEvent, collideSum, exampleEvent, exampleManifolds, lookup2, tA, tB,
      QuatF.IDENTITY, QuatF.mulVec3, FVec3.add, FVec3.ZERO, FVec3.divs, FVec3.muls,
      FVec3.dot, FVec3.cross, FNum.add, FNum.div, FNum.mul, FNum.sub]
    norm_num

/-- Witness for C2: the general average-of-averages statement applied to
the spec's worked example. -/
theorem collide_avg_of_avgs_witness :
    collideEvent (lookup2 10 20 tA tB) exampleEvent =
      some (tA.translation.add (tA.rotation.mulVec3 (specCentroid1 exampleEvent.manifolds)),
            tB.translation.add (tB.rotation.mulVec3 (specCentroid2 exampleEvent.manifolds))) :=
  collide_avg_of_avgs.1 (lookup2 10 20 tA tB) exampleEvent tA tB rfl rfl rfl

/-- Claim C3: the Periodic Trigger reports at most one fire per `advance`
call (its fire signal is a single boolean), and the overshoot carries
forward: from a fresh timer with interval `I`, advancing by `2.5 * I`
fires once and leaves `elapsed = 1.5 * I` (`elapsed -= interval`, not
reset to zero), and a subsequent advance by `0.5 * I` fires again at the
`3 * I` mark. -/
theorem trigger_fires_once_with_carryover (I : ℚ) (hI : 0 < I) :
    (Trigger.tick ⟨I, 0⟩ (5/2 * I)).2 = true ∧
    (Trigger.tick ⟨I, 0⟩ (5/2 * I)).1 = ⟨I, 3/2 * I⟩ ∧
    (Trigger.tick ⟨I, 3/2 * I⟩ (1/2 * I)).2 = true ∧
    (Trigger.tick ⟨I, 3/2 * I⟩ (1/2 * I)).1 = ⟨I, I⟩ := by
  unfold Trigger.tick
  have h1 : I ≤ 0 + 5/2 * I := by linarith
  have h2 : I ≤ 3/2 * I + 1/2 * I := by linarith
  rw [if_pos h1, if_pos h2]
  refine ⟨rfl, ?_, rfl, ?_⟩ <;> simp <;> ring

/-- Witness for C3 at the program's interval of 4 seconds. -/
theorem trigger_fires_once_with_carryover_witness :
    (Trigger.tick ⟨4, 0⟩ (5/2 * 4)).2 = true ∧
    (Trigger.tick ⟨4, 0⟩ (5/2 * 4)).1 = ⟨4, 3/2 * 4⟩ ∧
    (Trigger.tick ⟨4, 3/2 * 4⟩ (1/2 * 4)).2 = true ∧
    (Trigger.tick ⟨4, 3/2 * 4⟩ (1/2 * 4)).1 = ⟨4, 4⟩ :=
  trigger_fires_once_with_carryover 4 (by norm_num)

/-- Claim C7: a collision event flagged `during_previous_frame` is skipped
before any centroid computation, and spawns no impact markers. -/
theorem collide_skips_previous_frame (lookup : Nat → Option TransformF)
    (c : Contacts) (h : c.during_previous_frame = true) :
    collideEvent lookup c = none ∧ collideMarkers lookup c = [] := by
  have h1 : collideEvent lookup c = none := by
    unfold collideEvent
    simp [h]
  exact ⟨h1, by unfold collideMarkers; rw [h1]⟩

/-- Witness for C7: a previous-frame copy of the worked example produces
nothing. -/
theorem collide_skips_previous_frame_witness :
    collideEvent (lookup2 10 20 tA tB) ⟨10, 20, true, exampleManifolds⟩ = none ∧
    collideMarkers (lookup2 10 20 tA tB) ⟨10, 20, true, exampleManifolds⟩ = [] :=
  collide_skips_previous_frame (lookup2 10 20 tA tB) ⟨10, 20, true, exampleManifolds⟩ rfl

/-- Claim C9: a fresh event with zero manifolds (or with a manifold of
zero contact points) is not skipped: the accumulated sum is divided by a
zero count with no guard, and two impact markers are still spawned, both
at non-finite (NaN) world positions. -/
theorem collide_divides_by_zero_count :
    collideMarkers (lookup2 1 2 tA tB) ⟨1, 2, false, []⟩ = [nanVec3, nanVec3] ∧
    collideMarkers (lookup2 1 2 tA tB) ⟨1, 2, false, [⟨[]⟩]⟩ = [nanVec3, nanVec3] ∧
    nanVec3.isFinite = false := by
  refine ⟨?_, ?_, rfl⟩ <;>
    simp [collideMarkers, collideEvent, collideSum, lookup2, tA, tB, nanVec3,
      QuatF.IDENTITY, QuatF.mulVec3, FVec3.add, FVec3.ZERO, FVec3.divs, FVec3.muls,
      FVec3.dot, FVec3.cross, FNum.add, FNum.div, FNum.mul, FNum.sub]

/-- Claim C4: whenever either input has all three axis magnitudes below
`EPSILON` (the componentwise `almost_zero` check), `rotation_between`
returns the identity quaternion regardless of the other argument. -/
theorem rotation_between_zero_identity (f t : RVec3)
    (h : almost_zero f ∨ almost_zero t) :
    rotation_between f t = RQuat.IDENTITY := by
  unfold rotation_between
  rw [if_pos h]

/-- Witness for C4: the zero vector against `(5, 0, 0)`. -/
theorem rotation_between_zero_identity_witness :
    (almost_zero ⟨0, 0, 0⟩ ∨ almost_zero ⟨5, 0, 0⟩) ∧
    rotation_between ⟨0, 0, 0⟩ ⟨5, 0, 0⟩ = RQuat.IDENTITY :=
  have h : almost_zero (⟨0, 0, 0⟩ : RVec3) ∨ almost_zero (⟨5, 0, 0⟩ : RVec3) :=
    Or.inl (by norm_num [almost_zero, EPSILON])
  ⟨h, rotation_between_zero_identity _ _ h⟩

/-- The length of `Vec3::X` is 1. -/
theorem length_X : RVec3.X.length = 1 := by
  unfold RVec3.length RVec3.dot RVec3.X
  norm_num

/-- `Vec3::X` is its own normalization. -/
theorem normalize_X : RVec3.X.normalize = RVec3.X := by
  unfold RVec3.normalize
  rw [length_X]
  simp [RVec3.smul, RVec3.X]

/-- Claim C5: `rotation_between` is a total function: every input pair
lands in one of its defined branches (identity, the half-turn about
`normalize(X × normalize(from))`, or the general axis-angle case) and
yields a well-defined quaternion; in particular the opposite-vectors
branch is taken, with its degenerate axis computation, even when `from`
is parallel to the X axis. -/
theorem rotation_between_total :
    (∀ f t : RVec3,
      rotation_between f t = RQuat.IDENTITY ∨
      rotation_between f t =
        RQuat.from_axis_angle ((RVec3.X.cross f.normalize).normalize) Real.pi ∨
      rotation_between f t =
        RQuat.from_axis_angle ((f.normalize.cross t.normalize).normalize)
          (Real.arccos (f.normalize.dot t.normalize))) ∧
    rotation_between RVec3.X ⟨-1, 0, 0⟩ =
      RQuat.from_axis_angle ((RVec3.X.cross (RVec3.normalize RVec3.X)).normalize)
        Real.pi := by
  constructor
  · intro f t
    unfold rotation_between
    simp only []
    split_ifs <;> tauto
  · have hnz : ¬ (almost_zero RVec3.X ∨ almost_zero ⟨-1, 0, 0⟩) := by
      norm_num [almost_zero, EPSILON, RVec3.X]
    have hnorm2 : RVec3.normalize ⟨-1, 0, 0⟩ = ⟨-1, 0, 0⟩ := by
      unfold RVec3.normalize RVec3.length RVec3.dot
      norm_num
      simp [RVec3.smul]
    have hdot : RVec3.X.normalize.dot (RVec3.normalize ⟨-1, 0, 0⟩) = -1 := by
      rw [normalize_X, hnorm2]
      simp [RVec3.dot, RVec3.X]
    unfold rotation_between
    rw [if_neg hnz]
    simp only [hdot]
    norm_num

/-- A single Loading-phase frame leaves the startup state untouched:
`fire` and `collide` are gated behind the `Play` state, the `Trigger`
resource does not exist yet, and the unconditionally scheduled
`despawn_delayed` sweep finds no entity carrying a `DelayedDespawn`. -/
theorem step_load_inert (inp : FrameInput) (h : inp.assetsLoaded = false) :
    step initState inp = initState := by
  unfold step despawn_delayed initState
  simp [h]

/-- Claim C1: for any number of frames before the Loading-to-Active
transition (assets not yet loaded), the application state is literally
unchanged: no Periodic Trigger fire, no Delayed Removal despawn, no
Collision Response marker spawn appears in the action log, the phase
stays `Load`, and the `Trigger` resource stays absent. -/
theorem loading_phase_inert (inps : List FrameInput)
    (h : ∀ i ∈ inps, i.assetsLoaded = false) :
    inps.foldl step initState = initState ∧
    (inps.foldl step initState).log = [] ∧
    (inps.foldl step initState).phase = false ∧
    (inps.foldl step initState).trigger = none := by
  have key : inps.foldl step initState = initState := by
    induction inps with
    | nil => rfl
    | cons hd tl ih =>
      rw [List.foldl_cons, step_load_inert hd (h hd (by simp)),
        ih (fun i hi => h i (by simp [hi]))]
  exact ⟨key, by rw [key]; rfl, by rw [key]; rfl, by rw [key]; rfl⟩

/-- Witness for C1: two not-yet-loaded frames, the second carrying a
(spurious) collision event, change nothing. -/
theorem loading_phase_inert_witness :
    List.foldl step initState [⟨1, false, []⟩, ⟨2, false, [⟨0, 1, false⟩]⟩]
        = initState ∧
    (List.foldl step initState [⟨1, false, []⟩, ⟨2, false, [⟨0, 1, false⟩]⟩]).log
        = [] ∧
    (List.foldl step initState [⟨1, false, []⟩, ⟨2, false, [⟨0, 1, false⟩]⟩]).phase
        = false ∧
    (List.foldl step initState [⟨1, false, []⟩, ⟨2, false, [⟨0, 1, false⟩]⟩]).trigger
        = none :=
  loading_phase_inert [⟨1, false, []⟩, ⟨2, false, [⟨0, 1, false⟩]⟩] (by decide)

/-- Folding `advance` calls over a one-shot timer accumulates the deltas
and never changes the configured duration. -/
theorem delayed_tick_fold (ds : List ℚ) :
    ∀ d0 : DelayedDespawn,
      (ds.foldl DelayedDespawn.tick d0).duration = d0.duration ∧
      (ds.foldl DelayedDespawn.tick d0).elapsed = d0.elapsed + ds.sum := by
  induction ds with
  | nil => intro d0; simp
  | cons hd tl ih =>
    intro d0
    rw [List.foldl_cons]
    have h := ih (d0.tick hd)
    refine ⟨?_, ?_⟩
    · rw [h.1]
      rfl
    · rw [h.2]
      simp [DelayedDespawn.tick, List.sum_cons]
      ring

/-- Claim C8: a `DelayedDespawn::after(T)` reports not-expired exactly as
long as the advanced time stays below `T` and expired once it reaches
`T`; when an entity's timer expires, the sweep removes the entity and
its full descendant subtree in that same step and logs the despawn; and
an entity that is no longer in the world can never be despawned again by
a later sweep (the timer instance is gone with it). -/
theorem delayed_removal_spec :
    (∀ (T : ℚ) (ds : List ℚ),
      (ds.foldl DelayedDespawn.tick (DelayedDespawn.after T)).finished = true ↔
        T ≤ ds.sum) ∧
    (∀ (w : List Ent) (delta : ℚ) (e : Ent) (d : DelayedDespawn),
      e ∈ w → e.delayed = some d → (d.tick delta).finished = true →
      (∀ e2 ∈ (despawn_delayed w delta).1, inSubtree e.id e2 = false) ∧
      Act.despawned e.id ∈ (despawn_delayed w delta).2) ∧
    (∀ (w : List Ent) (delta : ℚ) (i : Nat), (∀ e ∈ w, e.id ≠ i) →
      (∀ e2 ∈ (despawn_delayed w delta).1, e2.id ≠ i) ∧
      Act.despawned i ∉ (despawn_delayed w delta).2) := by
  refine ⟨?_, ?_, ?_⟩
  · intro T ds
    have h := delayed_tick_fold ds (DelayedDespawn.after T)
    rw [DelayedDespawn.finished, h.1, h.2]
    simp [DelayedDespawn.after]
  · intro w delta e d he hd hfin
    have hfired : e.id ∈ w.filterMap (fun e =>
        match e.delayed with
        | some d => if (d.tick delta).finished then some e.id else none
        | none => none) := by
      refine List.mem_filterMap.mpr ⟨e, he, ?_⟩
      rw [hd]
      simp [hfin]
    constructor
    · intro e2 h2
      unfold despawn_delayed at h2
      rw [List.mem_filter] at h2
      have hall := h2.2
      rw [List.all_eq_true] at hall
      have := hall e.id hfired
      simpa using this
    · unfold despawn_delayed
      exact List.mem_map.mpr ⟨e.id, hfired, rfl⟩
  · intro w delta i hid
    constructor
    · intro e2 h2
      unfold despawn_delayed at h2
      rw [List.mem_filter] at h2
      obtain ⟨e, he, rfl⟩ := List.mem_map.mp h2.1
      exact hid e he
    · intro hmem
      unfold despawn_delayed at hmem
      rw [List.mem_map] at hmem
      obtain ⟨j, hj, hji⟩ := hmem
      obtain ⟨e, he, hfe⟩ := List.mem_filterMap.mp hj
      have hj_eq : j = e.id := by
        cases hde : e.delayed with
        | none => rw [hde] at hfe; simp at hfe
        | some d =>
          rw [hde] at hfe
          by_cases hf : (d.tick delta).finished = true
          · simp [hf] at hfe; omega
          · simp [hf] at hfe
      have : e.id = i := by
        injection hji with h
        omega
      exact hid e he this

/-- Witness for C8: a marker's one-second timer advanced by two seconds
expires; sweeping a world holding only that marker removes its subtree
and logs the despawn; a world without entity 9 never despawns 9. -/
theorem delayed_removal_spec_witness :
    ((DelayedDespawn.after 1).tick 2).finished = true ∧
    (∀ e2 ∈ (despawn_delayed [markerEnt 5] 2).1, inSubtree 5 e2 = false) ∧
    Act.despawned 5 ∈ (despawn_delayed [markerEnt 5] 2).2 ∧
    (∀ e2 ∈ (despawn_delayed [markerEnt 7] 2).1, e2.id ≠ 9) ∧
    Act.despawned 9 ∉ (despawn_delayed [markerEnt 7] 2).2 := by
  have hfin : ((DelayedDespawn.after 1).tick 2).finished = true := by
    norm_num [DelayedDespawn.after, DelayedDespawn.tick, DelayedDespawn.finished]
  have h2 := delayed_removal_spec.2.1 [markerEnt 5] 2 (markerEnt 5)
      (DelayedDespawn.after 1) (List.mem_singleton.mpr rfl) rfl hfin
  have h3 := delayed_removal_spec.2.2 [markerEnt 7] 2 9 (by
    intro e he
    rw [List.mem_singleton] at he
    subst he
    simp [markerEnt])
  exact ⟨hfin, h2.1, h2.2, h3.1, h3.2⟩

/-- The component discipline of impact markers: a marker entity carries a
mesh, a material, a transform and a `DelayedDespawn` of duration 1, and
carries no collider, no rigid body and no collision layers. -/
def EntClean (e : Ent) : Prop :=
  e.origin = .marker →
    e.hasMesh = true ∧ e.hasMaterial = true ∧ e.hasTransform = true ∧
    e.delayed.map DelayedDespawn.duration = some 1 ∧
    e.hasCollider = false ∧ e.rigidBody = none ∧ e.layers = none

/-- The inductive world invariant: every entity is marker-clean and has a
fresh-bounded id, and entity ids are pairwise distinct. -/
def WInv (w : List Ent) (n : Nat) : Prop :=
  (∀ e ∈ w, EntClean e ∧ e.id < n) ∧ (w.map Ent.id).Nodup

theorem winv_mono {w : List Ent} {n m : Nat} (h : WInv w n) (hm : n ≤ m) :
    WInv w m :=
  ⟨fun e he => ⟨(h.1 e he).1, lt_of_lt_of_le (h.1 e he).2 hm⟩, h.2⟩

theorem winv_spawn2 {w : List Ent} {n : Nat} (a b : Ent)
    (h : WInv w n) (ha : EntClean a) (hb : EntClean b)
    (hida : a.id = n) (hidb : b.id = n + 1) :
    WInv (w ++ [a, b]) (n + 2) := by
  constructor
  · intro e he
    rw [List.mem_append] at he
    rcases he with he | he
    · exact ⟨(h.1 e he).1, by have := (h.1 e he).2; omega⟩
    · simp only [List.mem_cons, List.not_mem_nil, or_false] at he
      rcases he with rfl | rfl
      · exact ⟨ha, by omega⟩
      · exact ⟨hb, by omega⟩
  · rw [List.map_append, List.nodup_append]
    refine ⟨h.2, ?_, ?_⟩
    · simp [hida, hidb]
    · intro x hx
      have hxlt : x < n := by
        rw [List.mem_map] at hx
        obtain ⟨e, he, rfl⟩ := hx
        exact (h.1 e he).2
      simp only [List.map_cons, List.map_nil, List.mem_cons, List.not_mem_nil,
        or_false, hida, hidb]
      omega

theorem delayed_map_tick_duration (o : Option DelayedDespawn) (delta : ℚ) :
    (o.map (·.tick delta)).map DelayedDespawn.duration = o.map DelayedDespawn.duration := by
  cases o <;> rfl

theorem winv_sweep {w : List Ent} {n : Nat} (delta : ℚ) (h : WInv w n) :
    WInv ((despawn_delayed w delta).1) n := by
  constructor
  · intro e2 h2
    unfold despawn_delayed at h2
    rw [List.mem_filter] at h2
    obtain ⟨e, he, rfl⟩ := List.mem_map.mp h2.1
    have hc := h.1 e he
    refine ⟨?_, hc.2⟩
    intro hm
    have hc1 := hc.1 hm
    refine ⟨hc1.1, hc1.2.1, hc1.2.2.1, ?_, hc1.2.2.2.2⟩
    show (e.delayed.map (·.tick delta)).map DelayedDespawn.duration = some 1
    rw [delayed_map_tick_duration]
    exact hc1.2.2.2.1
  · have hsub : ((despawn_delayed w delta).1.map Ent.id).Sublist (w.map Ent.id) := by
      unfold despawn_delayed
      have h1 : ((w.map (fun e => { e with delayed := e.delayed.map (·.tick delta) })).filter
          (fun e => (w.filterMap (fun e => match e.delayed with
            | some d => if (d.tick delta).finished then some e.id else none
            | none => none)).all (fun r => !(inSubtree r e)))).Sublist
          (w.map (fun e => { e with delayed := e.delayed.map (·.tick delta) })) :=
        List.filter_sublist _
      have h2 := h1.map Ent.id
      rw [List.map_map] at h2
      have heq : (Ent.id ∘ fun e => { e with delayed := e.delayed.map (·.tick delta) }) = Ent.id := by
        funext e; rfl
      rw [heq] at h2
      exact h2
    exact h.2.sublist hsub

def AppInv (s : AppState) : Prop := WInv s.world s.nextId

theorem winv_append_rock {w : List Ent} {n : Nat} (h : WInv w n) :
    WInv (w ++ rockEnts n) (n + 2) := by
  unfold rockEnts
  refine winv_spawn2 _ _ h ?_ ?_ rfl rfl
  · intro hm
    simp at hm
  · intro hm
    simp at hm

theorem winv_append_ammo {w : List Ent} {n : Nat} (h : WInv w n) :
    WInv (w ++ ammoEnts n) (n + 2) := by
  unfold ammoEnts
  refine winv_spawn2 _ _ h ?_ ?_ rfl rfl
  · intro hm
    simp at hm
  · intro hm
    simp at hm

theorem markerEnt_clean (n : Nat) : EntClean (markerEnt n) := by
  intro hm
  simp [markerEnt, DelayedDespawn.after]

theorem winv_append_markers {w : List Ent} {n : Nat} (h : WInv w n) :
    WInv (w ++ [markerEnt n, markerEnt (n + 1)]) (n + 2) :=
  winv_spawn2 _ _ h (markerEnt_clean n) (markerEnt_clean (n + 1)) rfl rfl

theorem inv_setup_scene {s : AppState} (h : AppInv s) : AppInv (setup_scene s) :=
  winv_append_rock h

theorem inv_fire {s : AppState} (delta : ℚ) (h : AppInv s) : AppInv (fire s delta) := by
  unfold fire
  cases htr : s.trigger with
  | none => exact h
  | some tr =>
    simp only []
    by_cases hf : (tr.tick delta).2 = true
    · rw [if_pos hf]
      exact winv_append_ammo h
    · rw [if_neg hf]
      exact h

theorem inv_collide {s : AppState} (events : List CollEvent) (h : AppInv s) :
    AppInv (collide s events) := by
  induction events generalizing s with
  | nil => exact h
  | cons ev tl ih =>
    show AppInv (List.foldl _ _ (ev :: tl))
    rw [List.foldl_cons]
    apply ih
    by_cases hprev : ev.during_previous_frame
    · simpa [hprev] using h
    · by_cases hres : (resolvable s.world ev.entity1 && resolvable s.world ev.entity2) = true
      · simp only [hprev, hres, Bool.false_eq_true, reduceIte]
        exact winv_append_markers h
      · simp only [hprev, hres, Bool.false_eq_true, reduceIte]
        exact h

theorem inv_sweep_state {s : AppState} (delta : ℚ) (lg : List Act) (h : AppInv s) :
    AppInv { s with world := (despawn_delayed s.world delta).1, log := lg } :=
  winv_sweep delta h

theorem inv_step {s : AppState} (inp : FrameInput) (h : AppInv s) :
    AppInv (step s inp) := by
  unfold step
  simp only []
  by_cases hc : (!s.phase && inp.assetsLoaded) = true
  · rw [if_pos hc]
    have h1 : AppInv (setup_scene { s with phase := true }) := inv_setup_scene h
    have h2 : AppInv { setup_scene { s with phase := true } with
        world := (despawn_delayed (setup_scene { s with phase := true }).world inp.delta).1,
        log := (setup_scene { s with phase := true }).log ++
          (despawn_delayed (setup_scene { s with phase := true }).world inp.delta).2 } :=
      inv_sweep_state inp.delta _ h1
    split_ifs with hph
    · exact inv_collide _ (inv_fire inp.delta h2)
    · exact h2
  · rw [if_neg hc]
    have h2 : AppInv { s with
        world := (despawn_delayed s.world inp.delta).1,
        log := s.log ++ (despawn_delayed s.world inp.delta).2 } :=
      inv_sweep_state inp.delta _ h
    split_ifs with hph
    · exact inv_collide _ (inv_fire inp.delta h2)
    · exact h2

theorem reachable_inv {s : AppState} (h : Reachable s) : AppInv s := by
  induction h with
  | init =>
    constructor
    · intro e he
      refine ⟨?_, ?_⟩
      · intro hm
        simp [initState] at he
        rcases he with rfl | rfl <;> simp at hm
      · simp [initState] at he
        rcases he with rfl | rfl <;> simp [initState]
    · simp [initState]
  | step hr hv ih => exact inv_step _ ih

/-- Claim C10: in every reachable state, an impact marker spawned by the
Collision Response carries exactly a mesh, a material, a transform and a
one-second `DelayedDespawn` — no collider, no rigid body, no collision
layers — and therefore no engine-valid collision event can name a marker
as a participant: markers never feed back into `collide` (no spawn
cascade). -/
theorem impact_markers_inert (s : AppState) (hs : Reachable s) :
    (∀ e ∈ s.world, e.origin = .marker →
      e.hasMesh = true ∧ e.hasMaterial = true ∧ e.hasTransform = true ∧
      e.delayed.map DelayedDespawn.duration = some 1 ∧
      e.hasCollider = false ∧ e.rigidBody = none ∧ e.layers = none) ∧
    (∀ inp : FrameInput, ValidInput s inp → ∀ ev ∈ inp.events, ∀ e ∈ s.world,
      (e.id = ev.entity1 ∨ e.id = ev.entity2) → e.origin ≠ .marker) := by
  have hinv := reachable_inv hs
  refine ⟨fun e he => (hinv.1 e he).1, ?_⟩
  intro inp hv ev hev e he hid hmark
  have hclean := (hinv.1 e he).1 hmark
  have huniq := List.inj_on_of_nodup_map hinv.2
  rcases hid with hid | hid
  · obtain ⟨e2, he2, hid2, hcol⟩ := (hv ev hev).1
    have heq : e = e2 := huniq he he2 (by rw [hid, hid2])
    rw [heq] at hclean
    rw [hclean.2.2.2.2.1] at hcol
    exact Bool.false_ne_true hcol
  · obtain ⟨e2, he2, hid2, hcol⟩ := (hv ev hev).2
    have heq : e = e2 := huniq he he2 (by rw [hid, hid2])
    rw [heq] at hclean
    rw [hclean.2.2.2.2.1] at hcol
    exact Bool.false_ne_true hcol

/-- Witness for C10: the startup state. -/
theorem impact_markers_inert_witness :
    (∀ e ∈ initState.world, e.origin = .marker →
      e.hasMesh = true ∧ e.hasMaterial = true ∧ e.hasTransform = true ∧
      e.delayed.map DelayedDespawn.duration = some 1 ∧
      e.hasCollider = false ∧ e.rigidBody = none ∧ e.layers = none) ∧
    (∀ inp : FrameInput, ValidInput initState inp → ∀ ev ∈ inp.events,
      ∀ e ∈ initState.world,
      (e.id = ev.entity1 ∨ e.id = ev.entity2) → e.origin ≠ .marker) :=
  impact_markers_inert initState Reachable.init

/-- Lagrange's identity for the cross product. -/
theorem lagrange (a b : RVec3) :
    (a.cross b).dot (a.cross b) + (a.dot b)^2 = (a.dot a) * (b.dot b) := by
  unfold RVec3.cross RVec3.dot
  ring

/-- A vector is orthogonal to its cross product with any vector. -/
theorem dot_cross_zero (a b : RVec3) : a.dot (a.cross b) = 0 := by
  unfold RVec3.cross RVec3.dot
  ring

/-- `Quat::mul_vec3` is homogeneous in the rotated vector. -/
theorem mulVec3_smul (q : RQuat) (c : ℝ) (v : RVec3) :
    q.mulVec3 (RVec3.smul c v) = RVec3.smul c (q.mulVec3 v) := by
  unfold RQuat.mulVec3 RVec3.dot RVec3.cross RVec3.smul RVec3.addv
  simp only [RVec3.mk.injEq]
  refine ⟨by ring, by ring, by ring⟩

/-- The identity quaternion rotates every vector to itself. -/
theorem mulVec3_IDENTITY (v : RVec3) : RQuat.IDENTITY.mulVec3 v = v := by
  unfold RQuat.mulVec3 RQuat.IDENTITY RVec3.dot RVec3.cross RVec3.smul RVec3.addv
  cases v with
  | mk x y z =>
    simp only [RVec3.mk.injEq]
    refine ⟨by ring, by ring, by ring⟩

/-- The Rodrigues form of glam's `mul_vec3` for an axis-angle quaternion
with a unit axis orthogonal to the rotated vector. -/
theorem rodrigues_axis (n u : RVec3) (θ : ℝ) (hn : n.dot n = 1) (hu : u.dot n = 0) :
    (RQuat.from_axis_angle n θ).mulVec3 u =
      RVec3.addv (RVec3.smul (Real.cos θ) u)
        (RVec3.smul (Real.sin θ) (n.cross u)) := by
  have hc : Real.cos θ = Real.cos (θ/2)^2 - Real.sin (θ/2)^2 := by
    rw [← Real.cos_two_mul']
    congr 1
    ring
  have hs : Real.sin θ = 2 * Real.sin (θ/2) * Real.cos (θ/2) := by
    rw [← Real.sin_two_mul]
    congr 1
    ring
  unfold RVec3.dot at hn hu
  unfold RQuat.from_axis_angle RQuat.mulVec3 RVec3.dot RVec3.cross RVec3.smul RVec3.addv
  rw [hc, hs]
  simp only [RVec3.mk.injEq]
  refine ⟨?_, ?_, ?_⟩
  · linear_combination (-(Real.sin (θ/2))^2 * u.x) * hn + (2 * Real.sin (θ/2)^2 * n.x) * hu
  · linear_combination (-(Real.sin (θ/2))^2 * u.y) * hn + (2 * Real.sin (θ/2)^2 * n.y) * hu
  · linear_combination (-(Real.sin (θ/2))^2 * u.z) * hn + (2 * Real.sin (θ/2)^2 * n.z) * hu

theorem dot_smul_smul (c e : ℝ) (v w : RVec3) :
    (RVec3.smul c v).dot (RVec3.smul e w) = (c * e) * (v.dot w) := by
  unfold RVec3.smul RVec3.dot
  ring

theorem dot_smul_right (c : ℝ) (v w : RVec3) :
    v.dot (RVec3.smul c w) = c * (v.dot w) := by
  unfold RVec3.smul RVec3.dot
  ring

theorem cross_smul_left (c : ℝ) (v w : RVec3) :
    (RVec3.smul c v).cross w = RVec3.smul c (v.cross w) := by
  unfold RVec3.smul RVec3.cross
  simp only [RVec3.mk.injEq]
  refine ⟨by ring, by ring, by ring⟩

theorem smul_smul_vec (c e : ℝ) (v : RVec3) :
    RVec3.smul c (RVec3.smul e v) = RVec3.smul (c * e) v := by
  unfold RVec3.smul
  simp only [RVec3.mk.injEq]
  refine ⟨by ring, by ring, by ring⟩

theorem one_smul_vec (v : RVec3) : RVec3.smul 1 v = v := by
  unfold RVec3.smul
  cases v with
  | mk x y z =>
    simp only [RVec3.mk.injEq]
    refine ⟨by ring, by ring, by ring⟩

/-- Squared length is nonnegative. -/
theorem dot_self_nonneg (v : RVec3) : 0 ≤ v.dot v := by
  unfold RVec3.dot
  nlinarith [sq_nonneg v.x, sq_nonneg v.y, sq_nonneg v.z]

/-- A component of magnitude at least `EPSILON` has positive square. -/
theorem comp_sq_pos {t : ℝ} (h : (1 : ℝ)/1000 ≤ |t|) : 0 < t * t := by
  have h2 : (1/1000 : ℝ) * (1/1000) ≤ |t| * |t| :=
    mul_le_mul h h (by norm_num) (abs_nonneg _)
  rw [abs_mul_abs_self] at h2
  linarith

/-- A vector that fails the `almost_zero` check has positive squared
length. -/
theorem not_almost_zero_dot_pos (v : RVec3) (h : ¬ almost_zero v) :
    0 < v.dot v := by
  unfold almost_zero EPSILON at h
  push_neg at h
  unfold RVec3.dot
  by_cases h1 : |v.x| < 1/1000
  · by_cases h2 : |v.y| < 1/1000
    · have h3 := comp_sq_pos (h h1 h2)
      nlinarith [mul_self_nonneg v.x, mul_self_nonneg v.y]
    · have h3 := comp_sq_pos (le_of_not_lt h2)
      nlinarith [mul_self_nonneg v.x, mul_self_nonneg v.z]
  · have h3 := comp_sq_pos (le_of_not_lt h1)
    nlinarith [mul_self_nonneg v.y, mul_self_nonneg v.z]

/-- Normalizing a vector of positive squared length yields a unit
vector. -/
theorem normalize_unit (v : RVec3) (h : 0 < v.dot v) :
    (v.normalize).dot (v.normalize) = 1 := by
  have hLpos : 0 < v.length := Real.sqrt_pos.mpr h
  have hL2 : v.length ^ 2 = v.dot v := by
    unfold RVec3.length
    exact Real.sq_sqrt h.le
  unfold RVec3.normalize
  rw [dot_smul_smul, ← hL2]
  field_simp
  ring

/-- Scaling the normalization by the original length restores the
vector. -/
theorem smul_length_normalize (v : RVec3) (h : 0 < v.dot v) :
    RVec3.smul v.length v.normalize = v := by
  have hLpos : 0 < v.length := Real.sqrt_pos.mpr h
  unfold RVec3.normalize
  rw [smul_smul_vec, mul_inv_cancel₀ hLpos.ne', one_smul_vec]

/-- The general branch of `rotation_between` on unit vectors: the
axis-angle quaternion about `normalize(a x b)` by `arccos(a . b)` takes
`a` exactly to `b`. -/
theorem rodrigues_unit (a b : RVec3) (ha : a.dot a = 1) (hb : b.dot b = 1)
    (hd1 : a.dot b < 1) (hd2 : -1 < a.dot b) :
    (RQuat.from_axis_angle ((a.cross b).normalize)
        (Real.arccos (a.dot b))).mulVec3 a = b := by
  obtain ⟨b1, b2, b3⟩ := b
  have hS : (a.cross ⟨b1, b2, b3⟩).dot (a.cross ⟨b1, b2, b3⟩)
      = 1 - (a.dot ⟨b1, b2, b3⟩)^2 := by
    have h := lagrange a ⟨b1, b2, b3⟩
    rw [ha, hb] at h
    linarith
  have hSpos : 0 < (a.cross ⟨b1, b2, b3⟩).dot (a.cross ⟨b1, b2, b3⟩) := by
    rw [hS]
    nlinarith
  have hLpos : 0 < (a.cross ⟨b1, b2, b3⟩).length := Real.sqrt_pos.mpr hSpos
  have hL2 : (a.cross ⟨b1, b2, b3⟩).length ^ 2 = 1 - (a.dot ⟨b1, b2, b3⟩)^2 := by
    unfold RVec3.length
    rw [Real.sq_sqrt hSpos.le, hS]
  have hn : ((a.cross ⟨b1, b2, b3⟩).normalize).dot ((a.cross ⟨b1, b2, b3⟩).normalize) = 1 :=
    normalize_unit _ hSpos
  have hna : a.dot ((a.cross ⟨b1, b2, b3⟩).normalize) = 0 := by
    unfold RVec3.normalize
    rw [dot_smul_right, dot_cross_zero]
    ring
  rw [rodrigues_axis _ _ _ hn hna]
  have hcos : Real.cos (Real.arccos (a.dot ⟨b1, b2, b3⟩)) = a.dot ⟨b1, b2, b3⟩ :=
    Real.cos_arccos hd2.le hd1.le
  have hsin : Real.sin (Real.arccos (a.dot ⟨b1, b2, b3⟩)) = (a.cross ⟨b1, b2, b3⟩).length := by
    rw [Real.sin_arccos, ← hL2, Real.sqrt_sq hLpos.le]
  rw [hcos, hsin]
  show RVec3.addv (RVec3.smul (a.dot ⟨b1, b2, b3⟩) a)
      (RVec3.smul (a.cross ⟨b1, b2, b3⟩).length
        ((RVec3.smul ((a.cross ⟨b1, b2, b3⟩).length)⁻¹ (a.cross ⟨b1, b2, b3⟩)).cross a)) =
      ⟨b1, b2, b3⟩
  rw [cross_smul_left, smul_smul_vec, mul_inv_cancel₀ hLpos.ne', one_smul_vec]
  unfold RVec3.dot at ha
  unfold RVec3.addv RVec3.smul RVec3.cross RVec3.dot
  simp only [RVec3.mk.injEq]
  refine ⟨?_, ?_, ?_⟩
  · linear_combination b1 * ha
  · linear_combination b2 * ha
  · linear_combination b3 * ha

/-- Claim C6 (amended): for inputs that are not componentwise
almost-zero (rather than merely non-zero) and whose normalized dot
product exceeds -1 (non-opposite), applying `rotation_between(from, to)`
to `from` yields a positive multiple of `to` — the general branch is the
Rodrigues rotation taking the `from` direction to the `to` direction,
and the `dot >= 1` branch returns the identity on already-aligned
directions. -/
theorem rotation_between_aligned (f t : RVec3)
    (hf : ¬ almost_zero f) (ht : ¬ almost_zero t)
    (hopp : -1 < (f.normalize).dot (t.normalize)) :
    ∃ c : ℝ, 0 < c ∧ (rotation_between f t).mulVec3 f = RVec3.smul c t := by
  have hfd : 0 < f.dot f := not_almost_zero_dot_pos f hf
  have htd : 0 < t.dot t := not_almost_zero_dot_pos t ht
  have hfl : 0 < f.length := Real.sqrt_pos.mpr hfd
  have htl : 0 < t.length := Real.sqrt_pos.mpr htd
  have hfa : f = RVec3.smul f.length f.normalize := (smul_length_normalize f hfd).symm
  have hna : (f.normalize).dot (f.normalize) = 1 := normalize_unit f hfd
  have hnb : (t.normalize).dot (t.normalize) = 1 := normalize_unit t htd
  have hd_le : (f.normalize.dot t.normalize)^2 ≤ 1 := by
    have h := lagrange f.normalize t.normalize
    rw [hna, hnb] at h
    nlinarith [dot_self_nonneg (f.normalize.cross t.normalize)]
  have hbt : t.normalize = RVec3.smul (t.length)⁻¹ t := rfl
  unfold rotation_between
  rw [if_neg (by tauto : ¬ (almost_zero f ∨ almost_zero t))]
  simp only []
  by_cases hcase : 1 ≤ f.normalize.dot t.normalize
  · rw [if_pos hcase]
    have hd1 : f.normalize.dot t.normalize = 1 := by nlinarith
    have hdiff : (f.normalize.x - t.normalize.x)^2 + (f.normalize.y - t.normalize.y)^2 +
        (f.normalize.z - t.normalize.z)^2 = 0 := by
      unfold RVec3.dot at hna hnb hd1
      linear_combination hna + hnb - 2 * hd1
    have hab : f.normalize = t.normalize := by
      have h1 : f.normalize.x = t.normalize.x := by
        nlinarith [sq_nonneg (f.normalize.x - t.normalize.x),
          sq_nonneg (f.normalize.y - t.normalize.y),
          sq_nonneg (f.normalize.z - t.normalize.z)]
      have h2 : f.normalize.y = t.normalize.y := by
        nlinarith [sq_nonneg (f.normalize.x - t.normalize.x),
          sq_nonneg (f.normalize.y - t.normalize.y),
          sq_nonneg (f.normalize.z - t.normalize.z)]
      have h3 : f.normalize.z = t.normalize.z := by
        nlinarith [sq_nonneg (f.normalize.x - t.normalize.x),
          sq_nonneg (f.normalize.y - t.normalize.y),
          sq_nonneg (f.normalize.z - t.normalize.z)]
      exact show (⟨f.normalize.x, f.normalize.y, f.normalize.z⟩ : RVec3) =
          ⟨t.normalize.x, t.normalize.y, t.normalize.z⟩ by rw [h1, h2, h3]
    refine ⟨f.length * (t.length)⁻¹, mul_pos hfl (inv_pos.mpr htl), ?_⟩
    rw [mulVec3_IDENTITY]
    calc f = RVec3.smul f.length f.normalize := hfa
      _ = RVec3.smul f.length (RVec3.smul (t.length)⁻¹ t) := by rw [hab, hbt]
      _ = RVec3.smul (f.length * (t.length)⁻¹) t := smul_smul_vec _ _ _
  · rw [if_neg hcase, if_neg (by linarith : ¬ f.normalize.dot t.normalize ≤ -1)]
    refine ⟨f.length * (t.length)⁻¹, mul_pos hfl (inv_pos.mpr htl), ?_⟩
    conv_lhs =>
      arg 2
      rw [hfa]
    rw [mulVec3_smul,
      rodrigues_unit f.normalize t.normalize hna hnb (lt_of_not_le hcase) hopp,
      hbt, smul_smul_vec]

/-- Counterexample to claim C6 as stated: `from = (1/2000, 0, 0)` is a
non-zero vector and `to = (0, 1, 0)` is non-zero and not a multiple of
`from` (in particular not opposite), yet `rotation_between` takes the
componentwise `almost_zero` branch, returns the identity, and the rotated
`from` is `from` itself — not a positive multiple of `to`. -/
theorem rotation_between_aligned_counterexample :
    (⟨1/2000, 0, 0⟩ : RVec3) ≠ RVec3.zero ∧
    (⟨0, 1, 0⟩ : RVec3) ≠ RVec3.zero ∧
    (¬ ∃ c : ℝ, (⟨0, 1, 0⟩ : RVec3) = RVec3.smul c ⟨1/2000, 0, 0⟩) ∧
    (rotation_between ⟨1/2000, 0, 0⟩ ⟨0, 1, 0⟩).mulVec3 ⟨1/2000, 0, 0⟩
      = ⟨1/2000, 0, 0⟩ ∧
    ¬ ∃ c : ℝ, 0 < c ∧
      (rotation_between ⟨1/2000, 0, 0⟩ ⟨0, 1, 0⟩).mulVec3 ⟨1/2000, 0, 0⟩ =
        RVec3.smul c ⟨0, 1, 0⟩ := by
  have hid : rotation_between ⟨1/2000, 0, 0⟩ ⟨0, 1, 0⟩ = RQuat.IDENTITY := by
    unfold rotation_between
    rw [if_pos (Or.inl (show almost_zero ⟨1/2000, 0, 0⟩ by
      norm_num [almost_zero, EPSILON, abs_of_nonneg]))]
  refine ⟨?_, ?_, ?_, ?_, ?_⟩
  · intro h
    have := congrArg RVec3.x h
    norm_num [RVec3.zero] at this
  · intro h
    have := congrArg RVec3.y h
    norm_num [RVec3.zero] at this
  · rintro ⟨c, hc⟩
    have := congrArg RVec3.y hc
    norm_num [RVec3.smul] at this
  · rw [hid, mulVec3_IDENTITY]
  · rintro ⟨c, hcpos, hc⟩
    rw [hid, mulVec3_IDENTITY] at hc
    have := congrArg RVec3.x hc
    norm_num [RVec3.smul] at this

/-- Witness for the amended C6 at `from = (1, 0, 0)`, `to = (0, 2, 0)`. -/
theorem rotation_between_aligned_witness :
    ¬ almost_zero ⟨1, 0, 0⟩ ∧ ¬ almost_zero ⟨0, 2, 0⟩ ∧
    -1 < (RVec3.normalize ⟨1, 0, 0⟩).dot (RVec3.normalize ⟨0, 2, 0⟩) ∧
    ∃ c : ℝ, 0 < c ∧
      (rotation_between ⟨1, 0, 0⟩ ⟨0, 2, 0⟩).mulVec3 ⟨1, 0, 0⟩ =
        RVec3.smul c ⟨0, 2, 0⟩ := by
  have h1 : ¬ almost_zero (⟨1, 0, 0⟩ : RVec3) := by norm_num [almost_zero, EPSILON]
  have h2 : ¬ almost_zero (⟨0, 2, 0⟩ : RVec3) := by norm_num [almost_zero, EPSILON]
  have h3 : -1 < (RVec3.normalize ⟨1, 0, 0⟩).dot (RVec3.normalize ⟨0, 2, 0⟩) := by
    unfold RVec3.normalize RVec3.length RVec3.dot RVec3.smul
    norm_num
  exact ⟨h1, h2, h3, rotation_between_aligned _ _ h1 h2 h3⟩
